import Mathlib

/-!
Verification of the whisper repository (Next.js client for a FastAPI task
orchestration backend) against its natural-language specification.

The embedding below is a shallow model of:
  * the client API layer (src/lib/api: TaskResponse, AnalysisProgress,
    WhisperAPI.createTask, WhisperAPI.connectWebSocket, WhisperAPI.healthCheck,
    validateGitHubUrl, extractRepoName), and
  * the TaskExecution React component's WebSocket message handler and task
    configuration table (src/components/TaskExecution.tsx), and
  * the backend TaskManager admission control, which is not present in src/
    and is therefore modelled from the spec (marked below).

JavaScript strings are modelled as Lean String where only equality matters
and as List Char where the regular-expression utilities need induction.
JavaScript numbers carried by progress events are modelled as Int.
-/

namespace Whisper

/-- The top-level `results` payload of the `AnalysisProgress` interface
(src/lib/api).  The nested `detailed_results` object is carried opaquely as a
single field: the message handler only ever stores the whole object
(`setResults(data.results)`), it never inspects the inside, so the inner
record structure is irrelevant to every claim. -/
structure AnalysisResults where
  summary : String
  detail : String
  deriving Repr, DecidableEq

/-- The `AnalysisProgress` interface of src/lib/api.  In TypeScript the `type`
field is the string-literal union
`'task.started' | 'task.progress' | 'task.completed' | 'task.error'`; at
runtime it is whatever string arrived in the JSON message, so it is modelled
as `String`.  Optional fields become `Option`.  The `partial_results` field is
omitted: no code in the repository ever reads it. -/
structure AnalysisProgress where
  type : String
  task_id : Option String := none
  current_step : Option String := none
  progress : Option Int := none
  results : Option AnalysisResults := none
  error : Option String := none
  deriving Repr, DecidableEq

/-- The string-literal tags admitted by the `AnalysisProgress.type` union in
src/lib/api (and exactly the four `case` labels of the `switch` in
TaskExecution's message handler). -/
def handledEventTypes : List String :=
  ["task.started", "task.progress", "task.completed", "task.error"]

/-- The React state of the TaskExecution component (src/components/
TaskExecution.tsx): `currentStep`, `isCompleted`, `progress`, `error`,
`isConnecting`, `results`.  (`taskId` is set only outside the message handler
and is not modelled.) -/
structure ClientState where
  currentStep : String
  isCompleted : Bool
  progress : Int
  error : Option String
  isConnecting : Bool
  results : Option AnalysisResults
  deriving Repr, DecidableEq

/-- The initial `useState` values of TaskExecution. -/
def initState : ClientState :=
  { currentStep := "Initializing..."
    isCompleted := false
    progress := 0
    error := none
    isConnecting := true
    results := none }

/-- The `switch (data.type)` message handler inside TaskExecution's
`startAnalysis` (TaskExecution.tsx lines 78-106), transcribed case by case.
JavaScript truthiness is preserved: `if (data.current_step)` is false for the
empty string, `data.progress !== undefined` accepts 0, `if (data.results)` is
true for every object, and `data.error || "An unknown error occurred"` falls
back on both a missing and an empty error string.  A `type` not matching any
`case` label falls through the `switch` and leaves the state unchanged. -/
def handleMessage (s : ClientState) (d : AnalysisProgress) : ClientState :=
  if d.type = "task.started" then
    { s with isConnecting := false, currentStep := "Analysis started..." }
  else if d.type = "task.progress" then
    let s1 := match d.current_step with
      | some cs => if cs = "" then s else { s with currentStep := cs }
      | none => s
    match d.progress with
      | some p => { s1 with progress := p }
      | none => s1
  else if d.type = "task.completed" then
    let s1 := { s with isCompleted := true, progress := 100,
                       currentStep := "Analysis complete!" }
    match d.results with
      | some r => { s1 with results := some r }
      | none => s1
  else if d.type = "task.error" then
    { s with
      error := some (match d.error with
        | some m => if m = "" then "An unknown error occurred" else m
        | none => "An unknown error occurred")
      isConnecting := false }
  else s

/-- Deliver a whole sequence of events to the handler, in order. -/
def run (s : ClientState) (es : List AnalysisProgress) : ClientState :=
  es.foldl handleMessage s

/-- The trajectory of client states produced while a sequence of events is
delivered: the seed state followed by the state after each event. -/
def trajectory (s : ClientState) : List AnalysisProgress → List ClientState
  | [] => [s]
  | e :: es => s :: trajectory (handleMessage s e) es

/-- The `ws.onmessage` wrapper installed by `WhisperAPI.connectWebSocket`
(src/lib/api lines 110-117): the raw frame is `JSON.parse`d and passed to
`onMessage`; if parsing throws, the error is only written to the console and
the handler is never invoked, so the client state is left untouched.  The
parse outcome is the `Option AnalysisProgress` argument. -/
def dispatchRaw (s : ClientState) (parsed : Option AnalysisProgress) : ClientState :=
  match parsed with
  | some d => handleMessage s d
  | none => s

/-- A convenient constructor for a bare `task.progress` event carrying only a
percent. -/
def progressEv (p : Int) : AnalysisProgress :=
  { type := "task.progress", progress := some p }

/-- A convenient constructor for a bare `task.completed` event with no
results payload. -/
def completedEv : AnalysisProgress :=
  { type := "task.completed" }

/-- Is an event terminal (`task.completed` or `task.error`) in the sense of
the spec's ordering invariant? -/
def isTerminalEvent (e : AnalysisProgress) : Bool :=
  e.type == "task.completed" || e.type == "task.error"

/-- The percents carried by the `task.progress` events of a sequence, in
order. -/
def progressPayloads (es : List AnalysisProgress) : List Int :=
  es.filterMap (fun e => if e.type = "task.progress" then e.progress else none)

/-- Boolean chain check: starting from `prev`, the list is non-decreasing. -/
def chainLeFrom : Int → List Int → Bool
  | _, [] => true
  | prev, p :: ps => decide (prev ≤ p) && chainLeFrom p ps

/-- Boolean check that a terminal event is never followed by further events
(the spec's ordering invariant for a single task). -/
def terminalLastB : List AnalysisProgress → Bool
  | [] => true
  | e :: es => (!isTerminalEvent e || es.isEmpty) && terminalLastB es

/-- Boolean check that consecutive states of a trajectory have non-decreasing
`progress`. -/
def progressMonoB : List ClientState → Bool
  | [] => true
  | [_] => true
  | a :: b :: rest => decide (a.progress ≤ b.progress) && progressMonoB (b :: rest)

/-- Boolean check that along a trajectory, `progress = 100` happens only in
states whose `isCompleted` flag is set (i.e. only after a `task.completed`
event has been processed). -/
def only100WhenCompletedB (states : List ClientState) : Bool :=
  states.all (fun st => !(decide (st.progress = 100)) || st.isCompleted)

/-! ## The WhisperAPI service layer (src/lib/api) -/

/-- The `TaskResponse` interface of src/lib/api. -/
structure TaskResponse where
  task_id : String
  websocket_url : String
  status : String
  repository_url : String
  task_type : String
  deriving Repr, DecidableEq

/-- The outcome of a `fetch` call, as far as the service layer reads it:
the `ok` flag, the numeric `status`, the `statusText`, and the JSON body
already decoded to a `TaskResponse` (read only when `ok` holds). -/
structure HttpResponse where
  ok : Bool
  status : Nat
  statusText : String
  body : TaskResponse
  deriving Repr, DecidableEq

/-- The JSON body that `WhisperAPI.createTask` serialises for its POST to
`/api/tasks/` (src/lib/api lines 52-55): exactly the two fields
`repository_url` and `task_type`, modelled as an ordered key/value list. -/
def createTaskRequestBody (repositoryUrl taskType : String) : List (String × String) :=
  [("repository_url", repositoryUrl), ("task_type", taskType)]

/-- `WhisperAPI.createTask` after the `fetch` resolved (src/lib/api lines
45-67): on a non-ok response it throws
`Failed to create task: {status} {statusText}`; on an ok response it returns
the parsed JSON body.  The surrounding try/catch only logs and rethrows, so
it does not change the value. -/
def createTask (repositoryUrl taskType : String) (response : HttpResponse) :
    Except String TaskResponse :=
  if response.ok then Except.ok response.body
  else Except.error
    ("Failed to create task: " ++ toString response.status ++ " " ++ response.statusText)

/-- What `WhisperAPI.connectWebSocket` (src/lib/api lines 90-130) does with
its three string parameters, in their declared order
`(taskId, repositoryUrl, taskType)`: it opens
`ws://localhost:8000/ws/tasks/{taskId}` and, on open, sends one JSON message
`{repository_url, task_type}`. -/
structure WsInit where
  url : String
  firstMessage : List (String × String)
  deriving Repr, DecidableEq

/-- The URL construction and the `ws.onopen` send of
`WhisperAPI.connectWebSocket`, as a function of its three string
parameters in declared order. -/
def connectWebSocket (taskId repositoryUrl taskType : String) : WsInit :=
  { url := "ws://localhost:8000/ws/tasks/" ++ taskId
    firstMessage := [("repository_url", repositoryUrl), ("task_type", taskType)] }

/-- The call site of `connectWebSocket` inside TaskExecution's
`startAnalysis` (TaskExecution.tsx lines 68-72).  The source passes, in this
order, `taskResponse.websocket_url`, `taskResponse.task_id`, `repository`,
`task`, then the three handler closures; the declared string parameters
`(taskId, repositoryUrl, taskType)` therefore receive
`(websocket_url, task_id, repository)`, and `task` lands on the `onMessage`
slot (the call has seven arguments for six parameters, shifting every
handler by one). -/
def startAnalysisWsInit (taskResponse : TaskResponse) (repository task : String) : WsInit :=
  connectWebSocket taskResponse.websocket_url taskResponse.task_id repository

/-- A response as `WhisperAPI.healthCheck` reads it: only the `ok` flag. -/
structure SimpleResponse where
  ok : Bool
  deriving Repr, DecidableEq

/-- `WhisperAPI.healthCheck` (src/lib/api lines 135-143): returns
`response.ok` when the `fetch` of `/health` resolves, and catches any thrown
error, logging it and returning `false`.  The `fetch` outcome is the
`Except` argument. -/
def healthCheck (fetchResult : Except String SimpleResponse) : Bool :=
  match fetchResult with
  | Except.ok response => response.ok
  | Except.error _ => false

/-! ## Task configuration (src/components/TaskExecution.tsx lines 16-48) -/

/-- One entry of the `taskConfig` record. -/
structure TaskConfigEntry where
  title : String
  icon : String
  description : String
  deriving Repr, DecidableEq

/-- The `explore-codebase` entry. -/
def exploreEntry : TaskConfigEntry :=
  { title := "Explore Codebase"
    icon := "🔍"
    description := "AI-powered comprehensive codebase analysis" }

/-- The `find-bugs` entry. -/
def findBugsEntry : TaskConfigEntry :=
  { title := "Find Potential Bugs"
    icon := "🐛"
    description := "Identify potential issues and code quality problems" }

/-- The `security-audit` entry. -/
def securityAuditEntry : TaskConfigEntry :=
  { title := "Security Audit"
    icon := "🔒"
    description := "Analyze security vulnerabilities and best practices" }

/-- The string-keyed `taskConfig` record: lookup returns the entry for one of
the three present keys and `undefined` (here `none`) for every other
string. -/
def taskConfig (task : String) : Option TaskConfigEntry :=
  if task = "explore-codebase" then some exploreEntry
  else if task = "find-bugs" then some findBugsEntry
  else if task = "security-audit" then some securityAuditEntry
  else none

/-- `taskInfo = taskConfig[task] || taskConfig["explore-codebase"]`
(TaskExecution.tsx line 48): a missing key (JavaScript `undefined`, falsy)
falls back to the `explore-codebase` entry; a present entry (an object,
always truthy) is used as is. -/
def taskInfo (task : String) : TaskConfigEntry :=
  match taskConfig task with
  | some entry => entry
  | none => exploreEntry

/-! ## TaskManager admission control

Modelled from the spec: the backend TaskManager (task registry, admission
control and task state machine) is not part of the checked-in sources — only
its documentation is — so the model below follows the spec's words in
paragraphs 4.1 and 5: `CreateTask` fails with `AdmissionRejected` if the
number of non-terminal tasks has reached the configured concurrency ceiling
or a non-terminal task with an identical fingerprint exists; the admission
check, fingerprint dedup, and registration are a single atomic operation, so
racing calls are serialized; task states are
`Pending -> Running -> {Completed, Failed, Cancelled}` with the right-hand
three terminal; only the owning workflow or cancellation moves a task, and
only ever from a non-terminal state into another state. -/

/-- Modelled from the spec: the task state machine of paragraph 4.1. -/
inductive TaskState where
  | pending
  | running
  | completed
  | failed
  | cancelled
  deriving Repr, DecidableEq

/-- Modelled from the spec: the three terminal states. -/
def isTerminalState : TaskState → Bool
  | TaskState.completed => true
  | TaskState.failed => true
  | TaskState.cancelled => true
  | _ => false

/-- Modelled from the spec: a registered task as the admission logic sees it
— identity, admission fingerprint, and state. -/
structure ManagedTask where
  id : Nat
  fingerprint : String
  state : TaskState
  deriving Repr, DecidableEq

/-- Modelled from the spec: the task registry owned by TaskManager, together
with the configured concurrency ceiling. -/
structure Registry where
  tasks : List ManagedTask
  nextId : Nat
  ceiling : Nat
  deriving Repr, DecidableEq

/-- Modelled from the spec: the empty registry at process start. -/
def initRegistry (ceiling : Nat) : Registry :=
  { tasks := [], nextId := 0, ceiling := ceiling }

/-- Number of tasks currently in a non-terminal state. -/
def nonTerminalCount (tasks : List ManagedTask) : Nat :=
  (tasks.filter (fun t => !isTerminalState t.state)).length

/-- Is some non-terminal task with this fingerprint present? -/
def activeWithFp (tasks : List ManagedTask) (fp : String) : Bool :=
  tasks.any (fun t => !isTerminalState t.state && t.fingerprint == fp)

/-- The admission error of paragraph 4.1. -/
inductive AdmissionError where
  | admissionRejected
  deriving Repr, DecidableEq

/-- Modelled from the spec: `CreateTask` (paragraph 4.1), as the single
atomic admission-check-and-register operation of paragraph 5.  Rejects when
the non-terminal count has reached the ceiling or when a non-terminal task
with an identical fingerprint exists; otherwise registers a fresh `Pending`
task and returns its id. -/
def createTaskAdmission (r : Registry) (fp : String) :
    Except AdmissionError (Registry × Nat) :=
  if decide (r.ceiling ≤ nonTerminalCount r.tasks) || activeWithFp r.tasks fp then
    Except.error AdmissionError.admissionRejected
  else
    Except.ok
      ({ r with
          tasks := { id := r.nextId, fingerprint := fp, state := TaskState.pending } :: r.tasks
          nextId := r.nextId + 1 },
        r.nextId)

/-- Modelled from the spec: how a terminal transition touches one registered
task — a non-terminal task with the matching id moves to the new state,
every other task is untouched. -/
def finishFun (i : Nat) (st : TaskState) (t : ManagedTask) : ManagedTask :=
  if t.id == i && !isTerminalState t.state then { t with state := st } else t

/-- Modelled from the spec: a workflow or cancellation moving task `i` into a
terminal state `st`.  Per the state machine, only a non-terminal task moves,
and only into a terminal state; anything else is a no-op (cancel is
idempotent on terminal tasks). -/
def finishTask (r : Registry) (i : Nat) (st : TaskState) : Registry :=
  if isTerminalState st then
    { r with tasks := r.tasks.map (finishFun i st) }
  else r

/-- Modelled from the spec: the operations that touch the registry. -/
inductive RegistryOp where
  | create (fp : String)
  | finish (i : Nat) (st : TaskState)
  deriving Repr, DecidableEq

/-- Apply one registry operation; a rejected creation leaves the registry
unchanged. -/
def applyOp (r : Registry) : RegistryOp → Registry
  | RegistryOp.create fp =>
    match createTaskAdmission r fp with
    | Except.ok (r1, _) => r1
    | Except.error _ => r
  | RegistryOp.finish i st => finishTask r i st

/-- Apply a sequence of registry operations, in order. -/
def runOps (r : Registry) (ops : List RegistryOp) : Registry :=
  ops.foldl applyOp r

/-- Boolean invariant: no fingerprint has two non-terminal tasks — every task
in the list is either terminal or has no non-terminal duplicate of its
fingerprint among the later entries. -/
def atMostOneActivePerFp : List ManagedTask → Bool
  | [] => true
  | t :: ts =>
    (isTerminalState t.state || !activeWithFp ts t.fingerprint) && atMostOneActivePerFp ts

/-! ## GitHub URL utilities (src/lib/api lines 167-178)

`validateGitHubUrl` tests the anchored pattern
`^https:\/\/github\.com\/[a-zA-Z0-9_.-]+\/[a-zA-Z0-9_.-]+\/?$`;
`extractRepoName` takes the first match of the unanchored pattern
`github\.com\/([^\/]+\/[^\/]+)` and returns the captured group, or the whole
input when no match exists.  Strings are modelled as `List Char`.  Both
character classes exclude `'/'`, and in both patterns each `+` repetition is
followed in the pattern only by `'/'` or by the end, so the greedy repetition
matches exactly the maximal run of class characters and backtracking can
never produce a different match; the matchers below use that maximal-run
reading directly. -/

/-- The character class `[a-zA-Z0-9_.-]`. -/
def isAllowedChar (c : Char) : Bool :=
  (decide ('a' ≤ c) && decide (c ≤ 'z')) ||
  (decide ('A' ≤ c) && decide (c ≤ 'Z')) ||
  (decide ('0' ≤ c) && decide (c ≤ '9')) ||
  c == '_' || c == '.' || c == '-'

/-- Match a literal at the head of the input, returning the remainder. -/
def dropLit : List Char → List Char → Option (List Char)
  | [], rest => some rest
  | _ :: _, [] => none
  | p :: ps, c :: cs => if p = c then dropLit ps cs else none

/-- The literal `github.com/` of both patterns. -/
def ghLit : List Char :=
  ['g', 'i', 't', 'h', 'u', 'b', '.', 'c', 'o', 'm', '/']

/-- The literal `https://github.com/` of the anchored pattern. -/
def httpsGhLit : List Char :=
  ['h', 't', 't', 'p', 's', ':', '/', '/'] ++ ghLit

/-- `validateGitHubUrl`: full-string match of
`https://github.com/<seg>/<seg>` with both segments non-empty runs over
`[a-zA-Z0-9_.-]`, optionally followed by one final `'/'`. -/
def validateGitHubUrl (url : List Char) : Bool :=
  match dropLit httpsGhLit url with
  | none => false
  | some rest =>
    let s1 := rest.takeWhile isAllowedChar
    match rest.dropWhile isAllowedChar with
    | '/' :: rest2 =>
      let s2 := rest2.takeWhile isAllowedChar
      let r2 := rest2.dropWhile isAllowedChar
      !s1.isEmpty && !s2.isEmpty && (r2.isEmpty || r2 == ['/'])
    | _ => false

/-- The character class `[^\/]` of the unanchored pattern. -/
def nonSlash (c : Char) : Bool :=
  !(c == '/')

/-- One attempt of the unanchored pattern `github\.com\/([^\/]+\/[^\/]+)` at
the head of the input: the literal, then a non-empty maximal `'/'`-free run,
a `'/'`, and a second non-empty maximal `'/'`-free run; returns the captured
group. -/
def matchAt (cs : List Char) : Option (List Char) :=
  match dropLit ghLit cs with
  | none => none
  | some rest =>
    let s1 := rest.takeWhile nonSlash
    match rest.dropWhile nonSlash with
    | '/' :: rest2 =>
      let s2 := rest2.takeWhile nonSlash
      if s1.isEmpty || s2.isEmpty then none else some (s1 ++ '/' :: s2)
    | _ => none

/-- Leftmost-match scan of the unanchored pattern: try every start position
from the left, returning the first capture. -/
def scanMatch : List Char → Option (List Char)
  | [] => none
  | c :: cs =>
    match matchAt (c :: cs) with
    | some m => some m
    | none => scanMatch cs

/-- `extractRepoName`: the captured `owner/repo` of the first match, or the
input unchanged when the pattern does not match anywhere. -/
def extractRepoName (url : List Char) : List Char :=
  match scanMatch url with
  | some m => m
  | none => url

/-- A string contains a `github.com/{owner}/{repo}` segment: somewhere inside
it the literal `github.com/` is followed by a non-empty `'/'`-free owner, a
`'/'`, and a non-empty `'/'`-free repo. -/
def containsRepoSeg (url : List Char) : Prop :=
  ∃ pre o r post,
    url = pre ++ (ghLit ++ o ++ '/' :: r) ++ post ∧
    o ≠ [] ∧ r ≠ [] ∧ o.all nonSlash = true ∧ r.all nonSlash = true

/-! # Theorems -/

/-- C10: `healthCheck` is total and never throws: it returns `true` exactly
when the GET of `/health` resolved with an ok status, and returns `false`
(rather than propagating the exception) whenever the request itself
failed. -/
theorem C10_healthCheck_total :
    ∀ fetchResult : Except String SimpleResponse,
      (healthCheck fetchResult = true ↔
        ∃ r, fetchResult = Except.ok r ∧ r.ok = true) ∧
      (∀ msg, healthCheck (Except.error msg) = false) := by
  intro fetchResult
  constructor
  · cases fetchResult with
    | ok r => simp [healthCheck]
    | error msg => simp [healthCheck]
  · intro msg
    rfl

/-- C8: unknown task types are a runtime fallback: every identifier with no
entry in the string-keyed `taskConfig` record renders with the
`explore-codebase` configuration, while each of the three configured
identifiers renders its own entry. -/
theorem C8_taskInfo_fallback :
    (∀ t : String, taskConfig t = none → taskInfo t = exploreEntry) ∧
    taskInfo "explore-codebase" = exploreEntry ∧
    taskInfo "find-bugs" = findBugsEntry ∧
    taskInfo "security-audit" = securityAuditEntry := by
  refine ⟨?_, by decide, by decide, by decide⟩
  intro t h
  simp [taskInfo, h]

/-- Witness for C8 at the concrete unknown identifier `"dependency-audit"`. -/
theorem C8_taskInfo_fallback_witness :
    taskConfig "dependency-audit" = none ∧
    taskInfo "dependency-audit" = exploreEntry :=
  ⟨by decide, C8_taskInfo_fallback.1 "dependency-audit" (by decide)⟩

/-- C6: `createTask` sends exactly the fields `repository_url` and
`task_type`, returns the parsed response object when the response is ok, and
throws on a non-ok response. -/
theorem C6_createTask_contract :
    ∀ (repositoryUrl taskType : String) (response : HttpResponse),
      (createTaskRequestBody repositoryUrl taskType).map Prod.fst =
        ["repository_url", "task_type"] ∧
      (createTaskRequestBody repositoryUrl taskType).lookup "repository_url" =
        some repositoryUrl ∧
      (createTaskRequestBody repositoryUrl taskType).lookup "task_type" =
        some taskType ∧
      (response.ok = true →
        createTask repositoryUrl taskType response = Except.ok response.body) ∧
      (response.ok = false →
        createTask repositoryUrl taskType response =
          Except.error ("Failed to create task: " ++ toString response.status ++
            " " ++ response.statusText)) := by
  intro repositoryUrl taskType response
  refine ⟨rfl, rfl, rfl, ?_, ?_⟩
  · intro hok
    simp [createTask, hok]
  · intro hok
    simp [createTask, hok]

/-- Witness for C6 at concrete inputs: an ok 200 response returns the parsed
body, a failed 500 response throws. -/
theorem C6_createTask_contract_witness :
    createTask "https://github.com/octo/repo" "explore-codebase"
      { ok := true, status := 200, statusText := "OK",
        body := { task_id := "abc123", websocket_url := "/ws/tasks/abc123",
                  status := "pending",
                  repository_url := "https://github.com/octo/repo",
                  task_type := "explore-codebase" } } =
      Except.ok
        { task_id := "abc123", websocket_url := "/ws/tasks/abc123",
          status := "pending",
          repository_url := "https://github.com/octo/repo",
          task_type := "explore-codebase" } ∧
    createTask "https://github.com/octo/repo" "explore-codebase"
      { ok := false, status := 500, statusText := "Internal Server Error",
        body := { task_id := "", websocket_url := "", status := "",
                  repository_url := "", task_type := "" } } =
      Except.error "Failed to create task: 500 Internal Server Error" :=
  ⟨(C6_createTask_contract "https://github.com/octo/repo" "explore-codebase"
      { ok := true, status := 200, statusText := "OK",
        body := { task_id := "abc123", websocket_url := "/ws/tasks/abc123",
                  status := "pending",
                  repository_url := "https://github.com/octo/repo",
                  task_type := "explore-codebase" } }).2.2.2.1 rfl,
   (C6_createTask_contract "https://github.com/octo/repo" "explore-codebase"
      { ok := false, status := 500, statusText := "Internal Server Error",
        body := { task_id := "", websocket_url := "", status := "",
                  repository_url := "", task_type := "" } }).2.2.2.2 rfl⟩

/-- C3: the code evaluated at a concrete created task.  The call site of
`connectWebSocket` passes `(websocket_url, task_id, repository)` into the
declared `(taskId, repositoryUrl, taskType)` slots, so the socket URL is
built from `websocket_url` instead of `task_id` and the first message sent on
open carries `(task_id, repository)` instead of the task's
`(repository_url, task_type)`. -/
theorem C3_call_site_argument_shift :
    let tr : TaskResponse :=
      { task_id := "abc123", websocket_url := "/ws/tasks/abc123",
        status := "pending", repository_url := "https://github.com/octo/repo",
        task_type := "explore-codebase" }
    let w := startAnalysisWsInit tr "https://github.com/octo/repo" "explore-codebase"
    w ≠ connectWebSocket tr.task_id "https://github.com/octo/repo" "explore-codebase" ∧
    w.url = "ws://localhost:8000/ws/tasks//ws/tasks/abc123" ∧
    w.firstMessage =
      [("repository_url", "abc123"),
       ("task_type", "https://github.com/octo/repo")] := by
  decide

/-- Counterexample to C1 as stated: the message handler stores each
`task.progress` percent verbatim, so a later event with a smaller percent
decreases the client's progress state, and a `task.progress` carrying 100
sets progress to 100 with no `task.completed` processed. -/
theorem C1_counterexample :
    (run initState [progressEv 50, progressEv 30]).progress <
      (run initState [progressEv 50]).progress ∧
    (run initState [progressEv 100]).progress = 100 ∧
    (run initState [progressEv 100]).isCompleted = false := by
  decide

/-- Counterexample to C2 as stated: after a `task.completed` event has been
processed, a further `task.progress` event changes the client's progress
state (the handler has no terminal guard). -/
theorem C2_counterexample :
    (handleMessage (handleMessage initState completedEv) (progressEv 30)).progress ≠
      (handleMessage initState completedEv).progress := by
  decide

/-- C2 amended: the handler applies events unconditionally, so
"terminal is last" is a backend ordering guarantee rather than a client
property; whenever `task.completed` is in fact the last delivered event, the
client's final state is the completed one: `isCompleted`, progress exactly
100, the completion step label, and the event's results when present. -/
theorem C2_completed_last_final_state :
    ∀ (es : List AnalysisProgress) (e : AnalysisProgress),
      e.type = "task.completed" →
      (run initState (es ++ [e])).isCompleted = true ∧
      (run initState (es ++ [e])).progress = 100 ∧
      (run initState (es ++ [e])).currentStep = "Analysis complete!" ∧
      (∀ r, e.results = some r → (run initState (es ++ [e])).results = some r) := by
  intro es e h
  have hrun : run initState (es ++ [e]) = handleMessage (run initState es) e := by
    simp [run, List.foldl_append]
  rw [hrun]
  cases hres : e.results <;> simp [handleMessage, h, hres]

/-- Witness for C2 amended: a progress event followed by a final completed
event ends in the completed state. -/
theorem C2_completed_last_final_state_witness :
    (run initState ([progressEv 40] ++ [completedEv])).isCompleted = true ∧
    (run initState ([progressEv 40] ++ [completedEv])).progress = 100 ∧
    (run initState ([progressEv 40] ++ [completedEv])).currentStep =
      "Analysis complete!" ∧
    (∀ r, completedEv.results = some r →
      (run initState ([progressEv 40] ++ [completedEv])).results = some r) :=
  C2_completed_last_final_state [progressEv 40] completedEv rfl

/-- Counterexample to C4 as stated: `task.agent_result` — one of the five
event variants the backend documentation lists — has no tag in the
`AnalysisProgress` union and no arm in the message handler's switch; such an
event is dropped with no effect on the client state. -/
theorem C4_counterexample :
    ¬ ("task.agent_result" ∈ handledEventTypes) ∧
    handleMessage initState { type := "task.agent_result" } = initState := by
  decide

/-- C4 amended: the client's union covers four of the spec's five variants
(Started, Progress, Completed, Failed); `task.agent_result` has no tag and no
dispatch arm, and every event carrying it leaves the client state
unchanged. -/
theorem C4_union_covers_four :
    handledEventTypes =
      ["task.started", "task.progress", "task.completed", "task.error"] ∧
    (∀ (s : ClientState) (d : AnalysisProgress),
      d.type = "task.agent_result" → handleMessage s d = s) := by
  refine ⟨rfl, ?_⟩
  intro s d h
  simp [handleMessage, h]

/-- Witness for C4 amended at a concrete agent-result event. -/
theorem C4_union_covers_four_witness :
    handleMessage initState
      { type := "task.agent_result", task_id := some "abc123" } = initState :=
  C4_union_covers_four.2 initState
    { type := "task.agent_result", task_id := some "abc123" } rfl

/-- Counterexample to C7 as stated: a WebSocket frame that fails to parse as
JSON is only logged — the handler is never invoked and the client state is
unchanged, with no error surfaced; and a `task.error` event whose error field
is present but empty is reported with the fixed fallback text rather than the
event's (empty) error message. -/
theorem C7_counterexample :
    dispatchRaw initState none = initState ∧
    initState.error = none ∧
    (handleMessage initState { type := "task.error", error := some "" }).error =
      some "An unknown error occurred" := by
  decide

/-- C7 amended: every `task.error` event is surfaced as the visible failed
state, carrying the event's error message when it is present and non-empty
and the fixed fallback "An unknown error occurred" when it is absent or
empty; an incoming frame that fails to parse as JSON, however, is logged and
dropped with no effect on the client state. -/
theorem C7_error_event_surfaced :
    (∀ (s : ClientState) (e : AnalysisProgress),
      e.type = "task.error" →
        (handleMessage s e).error =
          some (match e.error with
            | some m => if m = "" then "An unknown error occurred" else m
            | none => "An unknown error occurred") ∧
        (handleMessage s e).isConnecting = false) ∧
    (∀ s : ClientState, dispatchRaw s none = s) := by
  constructor
  · intro s e h
    constructor
    · simp [handleMessage, h]
    · simp [handleMessage, h]
  · intro s
    rfl

/-! ### Progress monotonicity machinery (C1) -/

/-- A `task.progress` event carrying a percent stores it verbatim and leaves
`isCompleted` alone. -/
theorem handleMessage_progress_fields (s : ClientState) (e : AnalysisProgress) (p : Int)
    (h : e.type = "task.progress") (hp : e.progress = some p) :
    (handleMessage s e).progress = p ∧
    (handleMessage s e).isCompleted = s.isCompleted := by
  cases hcs : e.current_step with
  | none => simp [handleMessage, h, hp, hcs]
  | some cs =>
    by_cases he : cs = "" <;> simp [handleMessage, h, hp, hcs, he]

/-- A `task.progress` event with no percent leaves progress and
`isCompleted` alone. -/
theorem handleMessage_progress_none_fields (s : ClientState) (e : AnalysisProgress)
    (h : e.type = "task.progress") (hp : e.progress = none) :
    (handleMessage s e).progress = s.progress ∧
    (handleMessage s e).isCompleted = s.isCompleted := by
  cases hcs : e.current_step with
  | none => simp [handleMessage, h, hp, hcs]
  | some cs =>
    by_cases he : cs = "" <;> simp [handleMessage, h, hp, hcs, he]

/-- A `task.completed` event sets progress to 100 and `isCompleted`. -/
theorem handleMessage_completed_fields (s : ClientState) (e : AnalysisProgress)
    (h : e.type = "task.completed") :
    (handleMessage s e).progress = 100 ∧
    (handleMessage s e).isCompleted = true := by
  cases hres : e.results <;> simp [handleMessage, h, hres]

/-- Any event that is neither `task.progress` nor `task.completed` leaves
progress and `isCompleted` alone. -/
theorem handleMessage_keeps_progress (s : ClientState) (e : AnalysisProgress)
    (h1 : e.type ≠ "task.progress") (h2 : e.type ≠ "task.completed") :
    (handleMessage s e).progress = s.progress ∧
    (handleMessage s e).isCompleted = s.isCompleted := by
  by_cases hs : e.type = "task.started"
  · simp [handleMessage, hs]
  · by_cases he : e.type = "task.error"
    · simp [handleMessage, hs, h1, h2, he]
    · simp [handleMessage, hs, h1, h2, he]

/-- Payloads of a sequence headed by a percent-carrying progress event. -/
theorem progressPayloads_cons_progress (e : AnalysisProgress) (es : List AnalysisProgress)
    (p : Int) (h : e.type = "task.progress") (hp : e.progress = some p) :
    progressPayloads (e :: es) = p :: progressPayloads es := by
  simp [progressPayloads, h, hp]

/-- Payloads of a sequence headed by a progress event with no percent. -/
theorem progressPayloads_cons_none (e : AnalysisProgress) (es : List AnalysisProgress)
    (h : e.type = "task.progress") (hp : e.progress = none) :
    progressPayloads (e :: es) = progressPayloads es := by
  simp [progressPayloads, h, hp]

/-- Payloads of a sequence headed by a non-progress event. -/
theorem progressPayloads_cons_other (e : AnalysisProgress) (es : List AnalysisProgress)
    (h : e.type ≠ "task.progress") :
    progressPayloads (e :: es) = progressPayloads es := by
  simp [progressPayloads, h]

/-- The ordering check steps over a non-terminal head event. -/
theorem terminalLastB_cons_not_terminal (e : AnalysisProgress) (es : List AnalysisProgress)
    (h : isTerminalEvent e = false) :
    terminalLastB (e :: es) = terminalLastB es := by
  simp [terminalLastB, h]

/-- A terminal head event forces the rest of the sequence to be empty. -/
theorem terminalLastB_cons_terminal (e : AnalysisProgress) (es : List AnalysisProgress)
    (h : isTerminalEvent e = true) (ht : terminalLastB (e :: es) = true) :
    es = [] := by
  cases es with
  | nil => rfl
  | cons f fs => simp [terminalLastB, h] at ht

/-- Prepending a state to a trajectory gives one more comparison. -/
theorem progressMonoB_cons (s s' : ClientState) (es : List AnalysisProgress) :
    progressMonoB (s :: trajectory s' es) =
      (decide (s.progress ≤ s'.progress) && progressMonoB (trajectory s' es)) := by
  cases es <;> rfl

/-- The inductive invariant behind C1: starting from a state whose progress
is at most 100 and is 100 only if completed, delivering any sequence whose
progress percents continue non-decreasingly from the current progress, stay
below 100, and whose terminal event (if any) comes last, keeps the trajectory
monotone and keeps 100 tied to completion. -/
theorem trajectory_progress_invariants :
    ∀ (es : List AnalysisProgress) (s : ClientState),
      s.progress ≤ 100 →
      (s.progress = 100 → s.isCompleted = true) →
      chainLeFrom s.progress (progressPayloads es) = true →
      (progressPayloads es).all (fun p => decide (p < 100)) = true →
      terminalLastB es = true →
      progressMonoB (trajectory s es) = true ∧
      only100WhenCompletedB (trajectory s es) = true := by
  intro es
  induction es with
  | nil =>
    intro s h100 hc _ _ _
    refine ⟨rfl, ?_⟩
    by_cases hp : s.progress = 100
    · simp [trajectory, only100WhenCompletedB, hp, hc hp]
    · simp [trajectory, only100WhenCompletedB, hp]
  | cons e es ih =>
    intro s h100 hc hchain hball hterm
    by_cases h2 : e.type = "task.progress"
    · have hnt : isTerminalEvent e = false := by simp [isTerminalEvent, h2]
      rw [terminalLastB_cons_not_terminal e es hnt] at hterm
      cases hp : e.progress with
      | some p =>
        have hf := handleMessage_progress_fields s e p h2 hp
        rw [progressPayloads_cons_progress e es p h2 hp] at hchain hball
        have hchain1 : s.progress ≤ p ∧ chainLeFrom p (progressPayloads es) = true := by
          simpa [chainLeFrom, Bool.and_eq_true] using hchain
        have hball1 : p < 100 ∧
            (progressPayloads es).all (fun q => decide (q < 100)) = true := by
          simpa [List.all_cons, Bool.and_eq_true] using hball
        have ihres := ih (handleMessage s e)
          (by rw [hf.1]; exact le_of_lt hball1.1)
          (by rw [hf.1]; intro hpe; omega)
          (by rw [hf.1]; exact hchain1.2)
          hball1.2 hterm
        constructor
        · show progressMonoB (s :: trajectory (handleMessage s e) es) = true
          rw [progressMonoB_cons]
          simp only [Bool.and_eq_true, decide_eq_true_eq]
          exact ⟨by rw [hf.1]; exact hchain1.1, ihres.1⟩
        · show only100WhenCompletedB (s :: trajectory (handleMessage s e) es) = true
          simp only [only100WhenCompletedB, List.all_cons, Bool.and_eq_true] at ihres ⊢
          refine ⟨?_, ihres.2⟩
          by_cases hps : s.progress = 100
          · simp [hps, hc hps]
          · simp [hps]
      | none =>
        have hf := handleMessage_progress_none_fields s e h2 hp
        rw [progressPayloads_cons_none e es h2 hp] at hchain hball
        have ihres := ih (handleMessage s e)
          (by rw [hf.1]; exact h100)
          (by rw [hf.1, hf.2]; exact hc)
          (by rw [hf.1]; exact hchain)
          hball hterm
        constructor
        · show progressMonoB (s :: trajectory (handleMessage s e) es) = true
          rw [progressMonoB_cons]
          simp only [Bool.and_eq_true, decide_eq_true_eq]
          exact ⟨by rw [hf.1], ihres.1⟩
        · show only100WhenCompletedB (s :: trajectory (handleMessage s e) es) = true
          simp only [only100WhenCompletedB, List.all_cons, Bool.and_eq_true] at ihres ⊢
          refine ⟨?_, ihres.2⟩
          by_cases hps : s.progress = 100
          · simp [hps, hc hps]
          · simp [hps]
    · by_cases h3 : e.type = "task.completed"
      · have hterm0 : isTerminalEvent e = true := by simp [isTerminalEvent, h3]
        have hes : es = [] := terminalLastB_cons_terminal e es hterm0 hterm
        subst hes
        have hf := handleMessage_completed_fields s e h3
        constructor
        · show progressMonoB [s, handleMessage s e] = true
          simp only [progressMonoB, Bool.and_eq_true, decide_eq_true_eq]
          exact ⟨by rw [hf.1]; exact h100, trivial⟩
        · show only100WhenCompletedB [s, handleMessage s e] = true
          simp only [only100WhenCompletedB, List.all_cons, List.all_nil,
            Bool.and_eq_true]
          refine ⟨?_, ?_, trivial⟩
          · by_cases hps : s.progress = 100
            · simp [hps, hc hps]
            · simp [hps]
          · simp [hf.2]
      · have hf := handleMessage_keeps_progress s e h2 h3
        by_cases h4 : e.type = "task.error"
        · have hterm0 : isTerminalEvent e = true := by simp [isTerminalEvent, h4]
          have hes : es = [] := terminalLastB_cons_terminal e es hterm0 hterm
          subst hes
          constructor
          · show progressMonoB [s, handleMessage s e] = true
            simp only [progressMonoB, Bool.and_eq_true, decide_eq_true_eq]
            exact ⟨by rw [hf.1], trivial⟩
          · show only100WhenCompletedB [s, handleMessage s e] = true
            simp only [only100WhenCompletedB, List.all_cons, List.all_nil,
              Bool.and_eq_true]
            refine ⟨?_, ?_, trivial⟩
            · by_cases hps : s.progress = 100
              · simp [hps, hc hps]
              · simp [hps]
            · rw [hf.1, hf.2]
              by_cases hps : s.progress = 100
              · simp [hps, hc hps]
              · simp [hps]
        · have hnt : isTerminalEvent e = false := by
            simp [isTerminalEvent, h3, h4]
          rw [terminalLastB_cons_not_terminal e es hnt] at hterm
          rw [progressPayloads_cons_other e es h2] at hchain hball
          have ihres := ih (handleMessage s e)
            (by rw [hf.1]; exact h100)
            (by rw [hf.1, hf.2]; exact hc)
            (by rw [hf.1]; exact hchain)
            hball hterm
          constructor
          · show progressMonoB (s :: trajectory (handleMessage s e) es) = true
            rw [progressMonoB_cons]
            simp only [Bool.and_eq_true, decide_eq_true_eq]
            exact ⟨by rw [hf.1], ihres.1⟩
          · show only100WhenCompletedB (s :: trajectory (handleMessage s e) es) = true
            simp only [only100WhenCompletedB, List.all_cons, Bool.and_eq_true] at ihres ⊢
            refine ⟨?_, ihres.2⟩
            by_cases hps : s.progress = 100
            · simp [hps, hc hps]
            · simp [hps]

/-- C1 amended: the handler stores each `task.progress` percent verbatim, so
the monotonicity of the client's progress is inherited from the backend
guarantee rather than enforced: for every delivered sequence whose
`task.progress` percents are non-decreasing from 0 and below 100 and whose
terminal event (if any) is last, the client's progress state never decreases
along the trajectory and equals 100 only in states reached after a
`task.completed` event has been processed. -/
theorem C1_progress_monotone :
    ∀ es : List AnalysisProgress,
      chainLeFrom 0 (progressPayloads es) = true →
      (progressPayloads es).all (fun p => decide (p < 100)) = true →
      terminalLastB es = true →
      progressMonoB (trajectory initState es) = true ∧
      only100WhenCompletedB (trajectory initState es) = true := by
  intro es h1 h2 h3
  exact trajectory_progress_invariants es initState (by decide) (by decide) h1 h2 h3

/-- Witness for C1 amended on a concrete well-formed backend sequence. -/
theorem C1_progress_monotone_witness :
    chainLeFrom 0 (progressPayloads
      [{ type := "task.started" }, progressEv 20, progressEv 80, completedEv]) = true ∧
    (progressPayloads
      [{ type := "task.started" }, progressEv 20, progressEv 80, completedEv]).all
        (fun p => decide (p < 100)) = true ∧
    terminalLastB
      [{ type := "task.started" }, progressEv 20, progressEv 80, completedEv] = true ∧
    progressMonoB (trajectory initState
      [{ type := "task.started" }, progressEv 20, progressEv 80, completedEv]) = true ∧
    only100WhenCompletedB (trajectory initState
      [{ type := "task.started" }, progressEv 20, progressEv 80, completedEv]) = true :=
  ⟨by decide, by decide, by decide,
    (C1_progress_monotone
      [{ type := "task.started" }, progressEv 20, progressEv 80, completedEv]
      (by decide) (by decide) (by decide)).1,
    (C1_progress_monotone
      [{ type := "task.started" }, progressEv 20, progressEv 80, completedEv]
      (by decide) (by decide) (by decide)).2⟩

/-- Witness for C7 amended at a concrete error event carrying a message. -/
theorem C7_error_event_surfaced_witness :
    (handleMessage initState { type := "task.error", error := some "clone failed" }).error =
      some "clone failed" ∧
    (handleMessage initState { type := "task.error", error := some "clone failed" }).isConnecting =
      false :=
  C7_error_event_surfaced.1 initState
    { type := "task.error", error := some "clone failed" } rfl

/-! ### Admission-control machinery (C5) -/

/-- `finishFun` never changes a task's fingerprint. -/
theorem finishFun_fingerprint (i : Nat) (st : TaskState) (t : ManagedTask) :
    (finishFun i st t).fingerprint = t.fingerprint := by
  unfold finishFun
  split <;> rfl

/-- A fingerprint active after a terminal transition was active before it:
the transition only retires tasks, it never wakes one. -/
theorem activeWithFp_map_finish (i : Nat) (st : TaskState) (fp : String)
    (hst : isTerminalState st = true) :
    ∀ ts : List ManagedTask,
      activeWithFp (ts.map (finishFun i st)) fp = true →
      activeWithFp ts fp = true := by
  intro ts
  induction ts with
  | nil => simp [activeWithFp]
  | cons t ts ih =>
    intro h
    simp only [List.map_cons, activeWithFp, List.any_cons, Bool.or_eq_true] at h ⊢
    rcases h with h | h
    · by_cases hcond : (t.id == i && !isTerminalState t.state) = true
      · rw [show finishFun i st t = { t with state := st } by
          simp [finishFun, hcond]] at h
        simp [hst] at h
      · have hcond2 : (t.id == i && !isTerminalState t.state) = false := by
          simpa using hcond
        rw [show finishFun i st t = t by simp [finishFun, hcond2]] at h
        exact Or.inl h
    · exact Or.inr (ih h)

/-- A terminal transition preserves the at-most-one-active-per-fingerprint
invariant. -/
theorem inv_map_finish (i : Nat) (st : TaskState)
    (hst : isTerminalState st = true) :
    ∀ ts : List ManagedTask,
      atMostOneActivePerFp ts = true →
      atMostOneActivePerFp (ts.map (finishFun i st)) = true := by
  intro ts
  induction ts with
  | nil => simp [atMostOneActivePerFp]
  | cons t ts ih =>
    intro h
    simp only [atMostOneActivePerFp, Bool.and_eq_true, Bool.or_eq_true] at h
    obtain ⟨h1, h2⟩ := h
    simp only [List.map_cons, atMostOneActivePerFp, Bool.and_eq_true, Bool.or_eq_true]
    refine ⟨?_, ih h2⟩
    rw [finishFun_fingerprint]
    rcases h1 with h1 | h1
    · -- an already-terminal task is untouched and stays terminal
      have hft : finishFun i st t = t := by simp [finishFun, h1]
      rw [hft]
      exact Or.inl h1
    · refine Or.inr ?_
      have h1f : activeWithFp ts t.fingerprint = false := by simpa using h1
      by_cases hm : activeWithFp (ts.map (finishFun i st)) t.fingerprint = true
      · exact absurd (activeWithFp_map_finish i st t.fingerprint hst ts hm)
          (by simp [h1f])
      · simpa using hm

/-- One registry operation preserves the invariant. -/
theorem applyOp_preserves_inv (r : Registry) (op : RegistryOp)
    (hinv : atMostOneActivePerFp r.tasks = true) :
    atMostOneActivePerFp (applyOp r op).tasks = true := by
  cases op with
  | create fp =>
    cases hcase : (decide (r.ceiling ≤ nonTerminalCount r.tasks) || activeWithFp r.tasks fp) with
    | true => simp [applyOp, createTaskAdmission, hcase, hinv]
    | false =>
      have hact : activeWithFp r.tasks fp = false := by
        simp only [Bool.or_eq_false_iff] at hcase
        exact hcase.2
      have hle : ¬ (r.ceiling ≤ nonTerminalCount r.tasks) := by
        simp only [Bool.or_eq_false_iff, decide_eq_false_iff_not] at hcase
        exact hcase.1
      simp [applyOp, createTaskAdmission, hle, atMostOneActivePerFp,
        isTerminalState, hact, hinv]
  | finish i st =>
    cases hst : isTerminalState st with
    | true => simpa [applyOp, finishTask, hst] using inv_map_finish i st hst r.tasks hinv
    | false => simpa [applyOp, finishTask, hst] using hinv

/-- Any sequence of registry operations preserves the invariant. -/
theorem runOps_preserves_inv :
    ∀ (ops : List RegistryOp) (r : Registry),
      atMostOneActivePerFp r.tasks = true →
      atMostOneActivePerFp (runOps r ops).tasks = true := by
  intro ops
  induction ops with
  | nil => intro r h; exact h
  | cons op ops ih =>
    intro r h
    exact ih (applyOp r op) (applyOp_preserves_inv r op h)

/-- C5: at most one task per fingerprint is non-terminal at any time.
Modelled from the spec (the backend TaskManager is not among the checked-in
sources): (a) every sequence of creations and terminal transitions from the
empty registry maintains the invariant, (b) a `CreateTask` with a fingerprint
that already has a non-terminal task is rejected with `AdmissionRejected`,
(c) so is any `CreateTask` once the non-terminal count reaches the
concurrency ceiling, and (d) of two serialized near-simultaneous
`CreateTask` calls for the same fingerprint, the first is admitted and the
second is rejected. -/
theorem C5_admission_control :
    (∀ (c : Nat) (ops : List RegistryOp),
      atMostOneActivePerFp (runOps (initRegistry c) ops).tasks = true) ∧
    (∀ (r : Registry) (fp : String),
      activeWithFp r.tasks fp = true →
      createTaskAdmission r fp = Except.error AdmissionError.admissionRejected) ∧
    (∀ (r : Registry) (fp : String),
      r.ceiling ≤ nonTerminalCount r.tasks →
      createTaskAdmission r fp = Except.error AdmissionError.admissionRejected) ∧
    (∀ (r r1 : Registry) (i : Nat) (fp : String),
      createTaskAdmission r fp = Except.ok (r1, i) →
      createTaskAdmission r1 fp = Except.error AdmissionError.admissionRejected) := by
  refine ⟨?_, ?_, ?_, ?_⟩
  · intro c ops
    exact runOps_preserves_inv ops (initRegistry c) rfl
  · intro r fp h
    simp [createTaskAdmission, h]
  · intro r fp h
    simp [createTaskAdmission, decide_eq_true h]
  · intro r r1 i fp h
    unfold createTaskAdmission at h
    by_cases hg : (decide (r.ceiling ≤ nonTerminalCount r.tasks) || activeWithFp r.tasks fp) = true
    · rw [if_pos hg] at h
      exact absurd h (by simp)
    · rw [if_neg hg] at h
      injection h with h2
      injection h2 with h3 h4
      subst h3
      simp [createTaskAdmission, activeWithFp, isTerminalState]

/-- Witness for C5 at concrete registries: a duplicate active fingerprint is
rejected, a full registry rejects, and the second of two back-to-back
creations with one fingerprint is rejected. -/
theorem C5_admission_control_witness :
    createTaskAdmission
      { tasks := [{ id := 0, fingerprint := "repo-a/explore", state := TaskState.running }],
        nextId := 1, ceiling := 4 } "repo-a/explore" =
      Except.error AdmissionError.admissionRejected ∧
    createTaskAdmission
      { tasks := [{ id := 0, fingerprint := "repo-b/explore", state := TaskState.running }],
        nextId := 1, ceiling := 1 } "repo-c/explore" =
      Except.error AdmissionError.admissionRejected ∧
    createTaskAdmission
      { tasks := [{ id := 0, fingerprint := "repo-a/explore", state := TaskState.pending }],
        nextId := 1, ceiling := 2 } "repo-a/explore" =
      Except.error AdmissionError.admissionRejected :=
  ⟨C5_admission_control.2.1
      { tasks := [{ id := 0, fingerprint := "repo-a/explore", state := TaskState.running }],
        nextId := 1, ceiling := 4 } "repo-a/explore" (by decide),
   C5_admission_control.2.2.1
      { tasks := [{ id := 0, fingerprint := "repo-b/explore", state := TaskState.running }],
        nextId := 1, ceiling := 1 } "repo-c/explore" (by decide),
   C5_admission_control.2.2.2 (initRegistry 2)
      { tasks := [{ id := 0, fingerprint := "repo-a/explore", state := TaskState.pending }],
        nextId := 1, ceiling := 2 } 0 "repo-a/explore" rfl⟩

/-! ### URL-pattern machinery (C9) -/

/-- Matching a literal against itself leaves the remainder. -/
theorem dropLit_self (p : List Char) : ∀ rest, dropLit p (p ++ rest) = some rest := by
  induction p with
  | nil => intro rest; rfl
  | cons c cs ih => intro rest; simp [dropLit, ih]

/-- A successful literal match decomposes the input. -/
theorem dropLit_eq_append (p : List Char) :
    ∀ u rest, dropLit p u = some rest → u = p ++ rest := by
  induction p with
  | nil =>
    intro u rest h
    simp only [dropLit, Option.some.injEq] at h
    simp [h]
  | cons c cs ih =>
    intro u rest h
    cases u with
    | nil => simp [dropLit] at h
    | cons d ds =>
      simp only [dropLit] at h
      by_cases hcd : c = d
      · rw [if_pos hcd] at h
        subst hcd
        rw [List.cons_append, ih ds rest h]
      · rw [if_neg hcd] at h
        cases h

/-- Every character kept by `takeWhile` satisfies the predicate. -/
theorem mem_takeWhile_pred (p : Char → Bool) :
    ∀ (l : List Char) (c : Char), c ∈ l.takeWhile p → p c = true := by
  intro l
  induction l with
  | nil => intro c hc; simp [List.takeWhile] at hc
  | cons d ds ih =>
    intro c hc
    by_cases hd : p d = true
    · rw [List.takeWhile_cons_of_pos hd] at hc
      rcases List.mem_cons.mp hc with hh | hh
      · rw [hh]; exact hd
      · exact ih c hh
    · rw [List.takeWhile_cons_of_neg hd] at hc
      simp at hc

/-- `'/'` is not in the `[a-zA-Z0-9_.-]` class. -/
theorem slash_not_allowed : isAllowedChar '/' = false := by decide

/-- Every class character is `'/'`-free. -/
theorem allowed_nonSlash (c : Char) (h : isAllowedChar c = true) : nonSlash c = true := by
  by_cases hc : c = '/'
  · subst hc; exact absurd h (by decide)
  · simp [nonSlash, hc]

/-- Forward half of the `validateGitHubUrl` characterization: acceptance
forces the `https://github.com/{owner}/{repo}` shape. -/
theorem validate_true_decomp (url : List Char) (h : validateGitHubUrl url = true) :
    ∃ o r t, url = httpsGhLit ++ o ++ '/' :: (r ++ t) ∧ o ≠ [] ∧ r ≠ [] ∧
      o.all isAllowedChar = true ∧ r.all isAllowedChar = true ∧
      (t = [] ∨ t = ['/']) := by
  unfold validateGitHubUrl at h
  split at h
  · cases h
  · rename_i rest heq
    split at h
    · rename_i rest2 heq2
      refine ⟨rest.takeWhile isAllowedChar, rest2.takeWhile isAllowedChar,
        rest2.dropWhile isAllowedChar, ?_, ?_, ?_, ?_, ?_, ?_⟩
      · rw [dropLit_eq_append httpsGhLit url rest heq]
        have h1 : rest = rest.takeWhile isAllowedChar ++ ('/' :: rest2) := by
          conv_lhs => rw [← List.takeWhile_append_dropWhile isAllowedChar rest, heq2]
        have h2 : rest2 = rest2.takeWhile isAllowedChar ++ rest2.dropWhile isAllowedChar :=
          (List.takeWhile_append_dropWhile isAllowedChar rest2).symm
        conv_lhs => rw [h1]
        conv_lhs => rw [h2]
        simp [List.append_assoc]
      · intro hnil
        rw [hnil] at h
        simp at h
      · intro hnil
        rw [hnil] at h
        simp at h
      · simp only [List.all_eq_true]
        intro c hc
        exact mem_takeWhile_pred isAllowedChar rest c hc
      · simp only [List.all_eq_true]
        intro c hc
        exact mem_takeWhile_pred isAllowedChar rest2 c hc
      · have h3 := h
        simp only [Bool.and_eq_true, Bool.or_eq_true] at h3
        rcases h3.2 with h4 | h4
        · exact Or.inl (by simpa using h4)
        · exact Or.inr (by simpa using h4)
    · cases h

/-- Backward half of the `validateGitHubUrl` characterization: every string
of the `https://github.com/{owner}/{repo}` shape is accepted. -/
theorem validate_decomp_true (o r t : List Char) (ho : o ≠ []) (hr : r ≠ [])
    (hoa : o.all isAllowedChar = true) (hra : r.all isAllowedChar = true)
    (ht : t = [] ∨ t = ['/']) :
    validateGitHubUrl (httpsGhLit ++ o ++ '/' :: (r ++ t)) = true := by
  have hmo : ∀ c ∈ o, isAllowedChar c = true := by simpa [List.all_eq_true] using hoa
  have hmr : ∀ c ∈ r, isAllowedChar c = true := by simpa [List.all_eq_true] using hra
  have hassoc : httpsGhLit ++ o ++ '/' :: (r ++ t) =
      httpsGhLit ++ (o ++ '/' :: (r ++ t)) := by
    simp [List.append_assoc]
  unfold validateGitHubUrl
  rw [hassoc, dropLit_self]
  have htake : (o ++ '/' :: (r ++ t)).takeWhile isAllowedChar = o := by
    rw [List.takeWhile_append_of_pos hmo,
      List.takeWhile_cons_of_neg (by simp [slash_not_allowed])]
    simp
  have hdrop : (o ++ '/' :: (r ++ t)).dropWhile isAllowedChar = '/' :: (r ++ t) := by
    rw [List.dropWhile_append_of_pos hmo,
      List.dropWhile_cons_of_neg (by simp [slash_not_allowed])]
  have htake2 : (r ++ t).takeWhile isAllowedChar = r := by
    rw [List.takeWhile_append_of_pos hmr]
    rcases ht with ht | ht <;> simp [ht, slash_not_allowed]
  have hdrop2 : (r ++ t).dropWhile isAllowedChar = t := by
    rw [List.dropWhile_append_of_pos hmr]
    rcases ht with ht | ht <;> simp [ht, slash_not_allowed]
  simp only [htake, hdrop, htake2, hdrop2]
  rcases ht with ht | ht <;> simp [ht, ho, hr]

/-- A successful single-position match decomposes both the capture and the
input: the capture is `owner/repo` with both parts non-empty and
`'/'`-free, and the input starts with `github.com/owner/repo`. -/
theorem matchAt_eq_some_decomp (u m : List Char) (h : matchAt u = some m) :
    ∃ o r post, m = o ++ '/' :: r ∧ o ≠ [] ∧ r ≠ [] ∧ o.all nonSlash = true ∧
      r.all nonSlash = true ∧ u = ghLit ++ o ++ '/' :: (r ++ post) := by
  unfold matchAt at h
  split at h
  · cases h
  · rename_i rest heq
    split at h
    · rename_i rest2 heq2
      have h0 :
          (if ((rest.takeWhile nonSlash).isEmpty || (rest2.takeWhile nonSlash).isEmpty) = true
            then (none : Option (List Char))
            else some (rest.takeWhile nonSlash ++ '/' :: rest2.takeWhile nonSlash)) =
            some m := h
      clear h
      split at h0
      · cases h0
      · rename_i hne
        injection h0 with h2
        refine ⟨rest.takeWhile nonSlash, rest2.takeWhile nonSlash,
          rest2.dropWhile nonSlash, h2.symm, ?_, ?_, ?_, ?_, ?_⟩
        · intro hnil
          rw [hnil] at hne
          simp at hne
        · intro hnil
          rw [hnil] at hne
          simp at hne
        · simp only [List.all_eq_true]
          intro c hc
          exact mem_takeWhile_pred nonSlash rest c hc
        · simp only [List.all_eq_true]
          intro c hc
          exact mem_takeWhile_pred nonSlash rest2 c hc
        · rw [dropLit_eq_append ghLit u rest heq]
          have h1 : rest = rest.takeWhile nonSlash ++ ('/' :: rest2) := by
            conv_lhs => rw [← List.takeWhile_append_dropWhile nonSlash rest, heq2]
          have h3 : rest2 = rest2.takeWhile nonSlash ++ rest2.dropWhile nonSlash :=
            (List.takeWhile_append_dropWhile nonSlash rest2).symm
          conv_lhs => rw [h1]
          conv_lhs => rw [h3]
          simp [List.append_assoc]
    · cases h

/-- The single-position match succeeds on `github.com/owner/repo...` and the
greedy second segment absorbs the `'/'`-free continuation. -/
theorem matchAt_at_seg (o r post : List Char) (ho : o ≠ []) (hr : r ≠ [])
    (hoa : o.all nonSlash = true) (hra : r.all nonSlash = true) :
    matchAt (ghLit ++ (o ++ '/' :: (r ++ post))) =
      some (o ++ '/' :: (r ++ post.takeWhile nonSlash)) := by
  have hmo : ∀ c ∈ o, nonSlash c = true := by simpa [List.all_eq_true] using hoa
  have hmr : ∀ c ∈ r, nonSlash c = true := by simpa [List.all_eq_true] using hra
  unfold matchAt
  rw [dropLit_self]
  have htake : (o ++ '/' :: (r ++ post)).takeWhile nonSlash = o := by
    rw [List.takeWhile_append_of_pos hmo,
      List.takeWhile_cons_of_neg (by simp [nonSlash])]
    simp
  have hdrop : (o ++ '/' :: (r ++ post)).dropWhile nonSlash = '/' :: (r ++ post) := by
    rw [List.dropWhile_append_of_pos hmo,
      List.dropWhile_cons_of_neg (by simp [nonSlash])]
  have htake2 : (r ++ post).takeWhile nonSlash = r ++ post.takeWhile nonSlash :=
    List.takeWhile_append_of_pos hmr
  simp only [htake, hdrop, htake2]
  have hne1 : o.isEmpty = false := by
    cases o with
    | nil => exact absurd rfl ho
    | cons c cs => rfl
  have hne2 : (r ++ post.takeWhile nonSlash).isEmpty = false := by
    cases r with
    | nil => exact absurd rfl hr
    | cons c cs => rfl
  rw [if_neg (by simp [hne1, hne2])]

/-- The scan steps over a position with no match. -/
theorem scanMatch_cons_none (c : Char) (cs : List Char)
    (h : matchAt (c :: cs) = none) : scanMatch (c :: cs) = scanMatch cs := by
  simp [scanMatch, h]

/-- The scan returns the first position's capture when it matches. -/
theorem scanMatch_cons_some (c : Char) (cs m : List Char)
    (h : matchAt (c :: cs) = some m) : scanMatch (c :: cs) = some m := by
  simp [scanMatch, h]

/-- No match can start at a character other than `'g'`. -/
theorem matchAt_ne_g (c : Char) (cs : List Char) (h : ¬ c = 'g') :
    matchAt (c :: cs) = none := by
  have hd : dropLit ghLit (c :: cs) = none := by
    show dropLit ('g' :: ['i', 't', 'h', 'u', 'b', '.', 'c', 'o', 'm', '/']) (c :: cs) = none
    simp [dropLit, if_neg (Ne.symm h)]
  unfold matchAt
  rw [hd]

/-- A successful scan happened at some split of the input. -/
theorem scanMatch_some_decomp :
    ∀ url m : List Char, scanMatch url = some m →
      ∃ pre u, url = pre ++ u ∧ matchAt u = some m := by
  intro url
  induction url with
  | nil => intro m h; simp [scanMatch] at h
  | cons c cs ih =>
    intro m h
    cases hm : matchAt (c :: cs) with
    | some m2 =>
      rw [scanMatch_cons_some c cs m2 hm] at h
      injection h with h2
      subst h2
      exact ⟨[], c :: cs, rfl, hm⟩
    | none =>
      rw [scanMatch_cons_none c cs hm] at h
      obtain ⟨pre, u, he, hu⟩ := ih m h
      exact ⟨c :: pre, u, by simp [he], hu⟩

/-- A match at any position makes the whole scan succeed. -/
theorem scanMatch_isSome_of_matchAt :
    ∀ (pre u m : List Char), matchAt u = some m →
      ∃ m2, scanMatch (pre ++ u) = some m2 := by
  intro pre
  induction pre with
  | nil =>
    intro u m h
    cases u with
    | nil =>
      rw [show matchAt ([] : List Char) = none from rfl] at h
      cases h
    | cons c cs =>
      refine ⟨m, ?_⟩
      rw [List.nil_append]
      exact scanMatch_cons_some c cs m h
  | cons c pre ih =>
    intro u m h
    obtain ⟨m2, hm2⟩ := ih u m h
    cases hma : matchAt (c :: (pre ++ u)) with
    | some m3 =>
      refine ⟨m3, ?_⟩
      rw [List.cons_append]
      exact scanMatch_cons_some c (pre ++ u) m3 hma
    | none =>
      refine ⟨m2, ?_⟩
      rw [List.cons_append, scanMatch_cons_none c (pre ++ u) hma]
      exact hm2

/-- The scan skips over any leading block free of `'g'`. -/
theorem scanMatch_append_no_g (pre : List Char) :
    (∀ c ∈ pre, ¬ c = 'g') → ∀ X, scanMatch (pre ++ X) = scanMatch X := by
  induction pre with
  | nil => intro _ X; rfl
  | cons c cs ih =>
    intro hng X
    rw [List.cons_append,
      scanMatch_cons_none c (cs ++ X) (matchAt_ne_g c (cs ++ X) (hng c (by simp))),
      ih (fun d hd => hng d (by simp [hd])) X]

/-- Scanning a string that starts with `https://github.com/` is the same as
scanning from the `github.com/` part: no earlier position can match. -/
theorem scanMatch_https (X : List Char) :
    scanMatch (httpsGhLit ++ X) = scanMatch (ghLit ++ X) := by
  have hsplit : httpsGhLit ++ X =
      ['h', 't', 't', 'p', 's', ':', '/', '/'] ++ (ghLit ++ X) := by
    simp [httpsGhLit, List.append_assoc]
  rw [hsplit, scanMatch_append_no_g _ (by decide) _]

/-- On a URL accepted by `validateGitHubUrl`, the first (and only) match of
the unanchored pattern starts right after `https://`, and its greedy capture
is exactly the owner/repo pair. -/
theorem extract_on_validated (o r t : List Char) (ho : o ≠ []) (hr : r ≠ [])
    (hoa : o.all isAllowedChar = true) (hra : r.all isAllowedChar = true)
    (ht : t = [] ∨ t = ['/']) :
    extractRepoName (httpsGhLit ++ o ++ '/' :: (r ++ t)) = o ++ '/' :: r := by
  have hoa2 : o.all nonSlash = true := by
    simp only [List.all_eq_true] at hoa ⊢
    exact fun c hc => allowed_nonSlash c (hoa c hc)
  have hra2 : r.all nonSlash = true := by
    simp only [List.all_eq_true] at hra ⊢
    exact fun c hc => allowed_nonSlash c (hra c hc)
  have hassoc : httpsGhLit ++ o ++ '/' :: (r ++ t) =
      httpsGhLit ++ (o ++ '/' :: (r ++ t)) := by
    simp [List.append_assoc]
  have htw : t.takeWhile nonSlash = [] := by
    rcases ht with ht | ht <;> subst ht <;> decide
  have hma := matchAt_at_seg o r t ho hr hoa2 hra2
  rw [htw, List.append_nil] at hma
  have hsm : scanMatch (ghLit ++ (o ++ '/' :: (r ++ t))) = some (o ++ '/' :: r) := by
    have hcons : ghLit ++ (o ++ '/' :: (r ++ t)) =
        'g' :: (['i', 't', 'h', 'u', 'b', '.', 'c', 'o', 'm', '/'] ++
          (o ++ '/' :: (r ++ t))) := rfl
    rw [hcons]
    apply scanMatch_cons_some
    rw [← hcons]
    exact hma
  unfold extractRepoName
  rw [hassoc, scanMatch_https, hsm]

/-- C9: `validateGitHubUrl` accepts exactly the strings
`https://github.com/{owner}/{repo}` with owner and repo non-empty over
`[a-zA-Z0-9_.-]` and an optional single trailing slash; `extractRepoName`
returns, for every string containing a `github.com/{owner}/{repo}` segment,
an `owner/repo` capture of such a segment of its input and returns every
other string unchanged; and every URL accepted by `validateGitHubUrl` is
mapped by `extractRepoName` to exactly its owner/repo pair. -/
theorem C9_github_url_utils :
    (∀ url : List Char, validateGitHubUrl url = true ↔
      ∃ o r t, url = httpsGhLit ++ o ++ '/' :: (r ++ t) ∧ o ≠ [] ∧ r ≠ [] ∧
        o.all isAllowedChar = true ∧ r.all isAllowedChar = true ∧
        (t = [] ∨ t = ['/'])) ∧
    (∀ url : List Char, containsRepoSeg url →
      ∃ o r, extractRepoName url = o ++ '/' :: r ∧ o ≠ [] ∧ r ≠ [] ∧
        o.all nonSlash = true ∧ r.all nonSlash = true ∧
        ∃ pre post, url = pre ++ (ghLit ++ o ++ '/' :: r) ++ post) ∧
    (∀ url : List Char, ¬ containsRepoSeg url → extractRepoName url = url) ∧
    (∀ o r t : List Char, o ≠ [] → r ≠ [] → o.all isAllowedChar = true →
      r.all isAllowedChar = true → (t = [] ∨ t = ['/']) →
      extractRepoName (httpsGhLit ++ o ++ '/' :: (r ++ t)) = o ++ '/' :: r) := by
  refine ⟨?_, ?_, ?_, ?_⟩
  · intro url
    constructor
    · exact validate_true_decomp url
    · rintro ⟨o, r, t, hurl, ho, hr, hoa, hra, ht⟩
      rw [hurl]
      exact validate_decomp_true o r t ho hr hoa hra ht
  · intro url hseg
    obtain ⟨pre, o, r, post, hurl, ho, hr, hoa, hra⟩ := hseg
    have hshape : url = pre ++ (ghLit ++ (o ++ '/' :: (r ++ post))) := by
      rw [hurl]
      simp [List.append_assoc]
    have hma := matchAt_at_seg o r post ho hr hoa hra
    obtain ⟨m, hm⟩ := scanMatch_isSome_of_matchAt pre _ _ hma
    rw [← hshape] at hm
    obtain ⟨pre2, u, hu, hmu⟩ := scanMatch_some_decomp url m hm
    obtain ⟨o2, r2, post2, hm2, ho2, hr2, hoa2, hra2, hu2⟩ :=
      matchAt_eq_some_decomp u m hmu
    refine ⟨o2, r2, ?_, ho2, hr2, hoa2, hra2, pre2, post2, ?_⟩
    · unfold extractRepoName
      rw [hm]
      exact hm2
    · rw [hu, hu2]
      simp [List.append_assoc]
  · intro url hseg
    cases hs : scanMatch url with
    | none =>
      unfold extractRepoName
      rw [hs]
    | some m =>
      exfalso
      obtain ⟨pre2, u, hu, hmu⟩ := scanMatch_some_decomp url m hs
      obtain ⟨o2, r2, post2, hm2, ho2, hr2, hoa2, hra2, hu2⟩ :=
        matchAt_eq_some_decomp u m hmu
      exact hseg ⟨pre2, o2, r2, post2,
        by rw [hu, hu2]; simp [List.append_assoc], ho2, hr2, hoa2, hra2⟩
  · intro o r t ho hr hoa hra ht
    exact extract_on_validated o r t ho hr hoa hra ht

/-- Witness for C9 at concrete strings: a valid URL is accepted and maps to
its owner/repo pair, a string with an embedded segment yields a capture, and
the empty string (no segment) is returned unchanged. -/
theorem C9_github_url_utils_witness :
    validateGitHubUrl
      ('h' :: 't' :: 't' :: 'p' :: 's' :: ':' :: '/' :: '/' ::
        'g' :: 'i' :: 't' :: 'h' :: 'u' :: 'b' :: '.' :: 'c' :: 'o' :: 'm' :: '/' ::
        'o' :: 'c' :: 't' :: 'o' :: '/' :: 'r' :: 'e' :: 'p' :: 'o' :: []) = true ∧
    (∃ o2 r2, extractRepoName
        (['x'] ++ (ghLit ++ ['a'] ++ '/' :: ['b']) ++ ['/', 'c']) = o2 ++ '/' :: r2 ∧
      o2 ≠ [] ∧ r2 ≠ [] ∧ o2.all nonSlash = true ∧ r2.all nonSlash = true ∧
      ∃ pre post,
        ['x'] ++ (ghLit ++ ['a'] ++ '/' :: ['b']) ++ ['/', 'c'] =
          pre ++ (ghLit ++ o2 ++ '/' :: r2) ++ post) ∧
    extractRepoName [] = [] ∧
    extractRepoName (httpsGhLit ++ ['o', 'c', 't', 'o'] ++ '/' ::
        (['r', 'e', 'p', 'o'] ++ [])) = ['o', 'c', 't', 'o'] ++ '/' :: ['r', 'e', 'p', 'o'] :=
  ⟨(C9_github_url_utils.1
      ('h' :: 't' :: 't' :: 'p' :: 's' :: ':' :: '/' :: '/' ::
        'g' :: 'i' :: 't' :: 'h' :: 'u' :: 'b' :: '.' :: 'c' :: 'o' :: 'm' :: '/' ::
        'o' :: 'c' :: 't' :: 'o' :: '/' :: 'r' :: 'e' :: 'p' :: 'o' :: [])).mpr
      ⟨['o', 'c', 't', 'o'], ['r', 'e', 'p', 'o'], [], by decide, by decide, by decide,
        by decide, by decide, Or.inl rfl⟩,
   C9_github_url_utils.2.1 (['x'] ++ (ghLit ++ ['a'] ++ '/' :: ['b']) ++ ['/', 'c'])
      ⟨['x'], ['a'], ['b'], ['/', 'c'], by decide, by decide, by decide, by decide,
        by decide⟩,
   C9_github_url_utils.2.2.1 []
      (by
        intro hcs
        obtain ⟨pre, o, r, post, heq, _, _, _, _⟩ := hcs
        simp [ghLit] at heq),
   C9_github_url_utils.2.2.2 ['o', 'c', 't', 'o'] ['r', 'e', 'p', 'o'] []
      (by decide) (by decide) (by decide) (by decide) (Or.inl rfl)⟩

end Whisper
